import Mathlib

/-!
Shallow embedding of the "Fruit Box" game core (src/script.js, the stateful
variant with INTRO/COUNTDOWN/PLAYING/FINISHED phases).

Conventions of the embedding:
* Canvas coordinates and all geometry are exact rationals (`ℚ`); the JS code
  computes with IEEE doubles, and every algebraic step is translated exactly.
* `Math.hypot(dx, dy) < t` (for `t ≥ 0`) is embedded as `dx^2 + dy^2 < t^2`,
  which is equivalent over the rationals.
* `Math.random()` draws are made explicit: every sampler call consumes a
  `RandDraw` record `(rx, ry, rv)` of raw draws from `[0,1)`, one per loop
  attempt; the derived position/value formulas mirror the source.
* Particles: the source spawns 10 particle objects per removed apple, with
  random color/size/velocity/decay that no game logic ever reads back; the
  embedding records each spawned particle by its spawn position only.
* DOM / canvas / localStorage writes are UI mirrors of the state fields
  (`score`, `timeLeft`, `highScore`, `newRecordShown`) and are represented by
  those fields; `clearInterval` on the 1 Hz timer handle is represented by the
  `timerRunning` flag.
-/

/-- A 2D point `{x, y}` as used for path vertices and positions. -/
structure Point where
  x : ℚ
  y : ℚ
deriving DecidableEq

/-- Default point used only to totalize list indexing (never read in bounds). -/
def origin : Point := ⟨0, 0⟩

/-- Index of the previous vertex in the closed polygon traversal: the JS loop
runs `i` from `0` with `j = vs.length - 1` initially and `j = i - 1` after. -/
def polyPrev (n i : ℕ) : ℕ := if i = 0 then n - 1 else i - 1

/-- One iteration's crossing test of `Game.isPointInPolygon`:
`((yi > y) !== (yj > y)) && (x < (xj - xi) * (y - yi) / (yj - yi) + xi)`. -/
def raycastHit (x y xi yi xj yj : ℚ) : Bool :=
  (decide (yi > y) != decide (yj > y)) &&
    decide (x < (xj - xi) * (y - yi) / (yj - yi) + xi)

/-- Crossing test of edge `i` (from vertex `polyPrev` to vertex `i`) of the
path against point `p`, exactly as the loop body reads the vertices. -/
def edgeHit (p : Point) (vs : List Point) (i : ℕ) : Bool :=
  raycastHit p.x p.y (vs.getD i origin).x (vs.getD i origin).y
    (vs.getD (polyPrev vs.length i) origin).x (vs.getD (polyPrev vs.length i) origin).y

/-- `Game.isPointInPolygon`: ray casting, toggling `inside` per crossing edge. -/
def isPointInPolygon (p : Point) (vs : List Point) : Bool :=
  (List.range vs.length).foldl (fun inside i => if edgeHit p vs i then !inside else inside) false

/-- Spec wording of a counted crossing (spec section 4.1): the edge endpoints
straddle the point's y-coordinate (one strictly above, the other not), and the
crossing x-coordinate strictly exceeds the point's x-coordinate. -/
def specEdgeCross (p vi vj : Point) : Prop :=
  ((p.y < vi.y ∧ ¬ p.y < vj.y) ∨ (p.y < vj.y ∧ ¬ p.y < vi.y)) ∧
    p.x < (vj.x - vi.x) * (p.y - vi.y) / (vj.y - vi.y) + vi.x

instance instDecidableSpecEdgeCross (p vi vj : Point) : Decidable (specEdgeCross p vi vj) := by
  unfold specEdgeCross
  infer_instance

/-- An apple token. The source constructor also fixes `radius = 25` and
`targetScale = 1`; both are constants never varied, kept implicit here. -/
structure Apple where
  x : ℚ
  y : ℚ
  value : ℤ
  selected : Bool
  scale : ℚ
  removed : Bool
deriving DecidableEq

/-- `new Apple(x, y, value)`: `selected = false`, `scale = 0`, `removed = false`. -/
def mkApple (x y : ℚ) (value : ℤ) : Apple := ⟨x, y, value, false, 0, false⟩

/-- Squared euclidean distance (embeds `Math.hypot` comparisons exactly). -/
def distSq (x1 y1 x2 y2 : ℚ) : ℚ := (x1 - x2) * (x1 - x2) + (y1 - y2) * (y1 - y2)

/-- Session phase (`this.state`). -/
inductive Phase
  | INTRO
  | COUNTDOWN
  | PLAYING
  | FINISHED
deriving DecidableEq

/-- One loop attempt's raw `Math.random()` draws: position draws `rx, ry` and
the value draw `rv`, each in `[0,1)` for a faithful run. -/
structure RandDraw where
  rx : ℚ
  ry : ℚ
  rv : ℚ
deriving DecidableEq

/-- Derived sample coordinate:
`Math.random() * (extent - 2 * (appleRadius + buffer)) + (appleRadius + buffer)`
with `appleRadius = 25`, `buffer = 10`. -/
def sampleCoord (extent r : ℚ) : ℚ := r * (extent - 2 * (25 + 10)) + (25 + 10)

/-- Derived sample value: `Math.floor(Math.random() * 9) + 1`. -/
def sampleVal (r : ℚ) : ℤ := ⌊r * 9⌋ + 1

/-- Collision scan of `generateApples`: every existing apple is an obstacle
(`dist < appleRadius * 2 + buffer`, i.e. squared distance below `60^2`). -/
def overlapsAny (x y : ℚ) (apples : List Apple) : Bool :=
  apples.any fun a => decide (distSq a.x a.y x y < 3600)

/-- Collision scan of `spawnNewApples`: removed apples are skipped
(`if (apple.removed) continue`). -/
def overlapsActive (x y : ℚ) (apples : List Apple) : Bool :=
  apples.any fun a => !a.removed && decide (distSq a.x a.y x y < 3600)

/-- Rejection-sampling loop of `Game.generateApples`:
`while (apples.length < 30 && attempts < 1000)`, one `RandDraw` per attempt. -/
def generateGo (supply : List RandDraw) (w h : ℚ) (attempts : ℕ) (apples : List Apple) :
    List Apple :=
  match supply with
  | [] => apples
  | d :: rest =>
    if apples.length < 30 ∧ attempts < 1000 then
      if overlapsAny (sampleCoord w d.rx) (sampleCoord h d.ry) apples then
        generateGo rest w h (attempts + 1) apples
      else
        generateGo rest w h (attempts + 1)
          (apples ++ [mkApple (sampleCoord w d.rx) (sampleCoord h d.ry) (sampleVal d.rv)])
    else apples

/-- Rejection-sampling loop of `Game.spawnNewApples`:
`while (added < count && attempts < 500)`; the accepted apple re-sets
`scale = 0`, which `mkApple` already has. -/
def spawnGo (count : ℕ) (supply : List RandDraw) (w h : ℚ) (attempts added : ℕ)
    (apples : List Apple) : List Apple :=
  match supply with
  | [] => apples
  | d :: rest =>
    if added < count ∧ attempts < 500 then
      if overlapsActive (sampleCoord w d.rx) (sampleCoord h d.ry) apples then
        spawnGo count rest w h (attempts + 1) added apples
      else
        spawnGo count rest w h (attempts + 1) (added + 1)
          (apples ++ [mkApple (sampleCoord w d.rx) (sampleCoord h d.ry) (sampleVal d.rv)])
    else apples

/-- The mutable game state of the `Game` class (fields the core logic reads or
writes; UI element handles are omitted, their text mirrors these fields). -/
structure GameState where
  apples : List Apple
  particles : List Point
  score : ℕ
  isDrawing : Bool
  currentPath : List Point
  state : Phase
  timeLeft : ℤ
  timerRunning : Bool
  highScore : ℕ
  newRecordShown : Bool
  width : ℚ
  height : ℚ
deriving DecidableEq

/-- `this.apples.filter(a => !a.removed)`. -/
def activeList (l : List Apple) : List Apple := l.filter fun a => !a.removed

/-- Count of active (non-removed) apples. -/
def activeCount (g : GameState) : ℕ := (activeList g.apples).length

/-- `Game.generateApples`: `this.apples = []` then the sampling loop. -/
def generateApples (supply : List RandDraw) (g : GameState) : GameState :=
  { g with apples := generateGo supply g.width g.height 0 [] }

/-- `Game.spawnNewApples`: the sampling loop appends to `this.apples`, then
`this.apples = this.apples.filter(a => !a.removed)` compacts removed apples. -/
def spawnNewApples (count : ℕ) (supply : List RandDraw) (g : GameState) : GameState :=
  { g with apples := ((spawnGo count supply g.width g.height 0 0 g.apples).filter
      (fun a => !a.removed)) }

/-- `Game.checkRefill`: `needed = 30 - activeCount`; spawn iff `needed > 0`. -/
def checkRefill (supply : List RandDraw) (g : GameState) : GameState :=
  if 0 < (30 : ℤ) - (activeList g.apples).length then
    spawnNewApples ((30 : ℤ) - ((activeList g.apples).length : ℤ)).toNat supply g
  else g

/-- `Game.spawnParticles(x, y)`: pushes 10 particles at `(x, y)`; their random
color/size/velocity/decay are never read by game logic and are not tracked. -/
def spawnParticles (x y : ℚ) (g : GameState) : GameState :=
  { g with particles := g.particles ++ List.replicate 10 (⟨x, y⟩ : Point) }

/-- `Game.updateScore(points)`: `if (points === 0) score = 0; else score += points`. -/
def updateScore (points : ℕ) (g : GameState) : GameState :=
  if points = 0 then { g with score := 0 } else { g with score := g.score + points }

/-- `this.apples.filter(a => a.selected && !a.removed)`. -/
def selectedActive (l : List Apple) : List Apple := l.filter fun a => a.selected && !a.removed

/-- `selectedApples.reduce((acc, apple) => acc + apple.value, 0)`. -/
def sumValues (l : List Apple) : ℤ := l.foldl (fun acc a => acc + a.value) 0

/-- Per-apple effect of the success branch `selectedApples.forEach(apple =>
apple.removed = true)`: exactly the apples picked by the `selectedActive`
filter are marked. -/
def markRemovedIfSelected (a : Apple) : Apple :=
  if a.selected && !a.removed then { a with removed := true } else a

/-- `a.selected = false`, used by the final `forEach` of `checkSelection` and
by the short-path branch of `checkRealTimeSelection`. -/
def clearSelected (a : Apple) : Apple := { a with selected := false }

/-- Particle bursts spawned for a list of removed apples, one burst of 10 at
each apple's location, in apple order. -/
def burstsOf : List Apple → List Point
  | [] => []
  | a :: t => List.replicate 10 (⟨a.x, a.y⟩ : Point) ++ burstsOf t

/-- Success branch of `Game.checkSelection` (`sum === 10`). The source's
`forEach` marks each selected apple removed and immediately spawns its burst;
marking and spawning commute (the burst reads only the apple's position), so
they are sequenced here: first all marks, then all bursts in the same apple
order, then `updateScore` and `checkRefill` as in the source. -/
def applyMatch (supply : List RandDraw) (g : GameState) : GameState :=
  checkRefill supply (updateScore (selectedActive g.apples).length
    ((selectedActive g.apples).foldl (fun h a => spawnParticles a.x a.y h)
      { g with apples := g.apples.map markRemovedIfSelected }))

/-- Intermediate state of the success branch after the marking, the particle
bursts and the score update, just before `checkRefill` (used to decompose
`applyMatch` in proofs). -/
def matchedState (g : GameState) : GameState :=
  { g with
    apples := g.apples.map markRemovedIfSelected,
    particles := g.particles ++ burstsOf (selectedActive g.apples),
    score := g.score + (selectedActive g.apples).length }

/-- `Game.checkSelection`: short paths are ineligible; on `sum === 10` run the
success branch; in all eligible cases finally clear every `selected` flag. -/
def checkSelection (supply : List RandDraw) (g : GameState) : GameState :=
  if g.currentPath.length < 3 then g
  else
    let g1 :=
      if sumValues (selectedActive g.apples) = 10 then applyMatch supply g else g
    { g1 with apples := g1.apples.map clearSelected }

/-- `Game.checkRealTimeSelection`: with a short path clear all flags, else
recompute each non-removed apple's flag by containment in the current path. -/
def checkRealTimeSelection (g : GameState) : GameState :=
  if g.currentPath.length < 3 then
    { g with apples := g.apples.map clearSelected }
  else
    { g with apples := g.apples.map (fun a =>
        if a.removed then a
        else { a with selected := isPointInPolygon ⟨a.x, a.y⟩ g.currentPath }) }

/-- `Game.handleInputStart`: ignored unless `PLAYING`; otherwise begin a drag
with a one-point path. -/
def handleInputStart (pos : Point) (g : GameState) : GameState :=
  if g.state ≠ Phase.PLAYING then g
  else { g with isDrawing := true, currentPath := [pos] }

/-- `Game.handleInputMove`: ignored unless drawing while `PLAYING`; appends the
position when it is more than 5 units from the last recorded point, then
recomputes the live highlight. An empty path cannot occur while drawing; the
source would compare against `NaN` and append nothing, embedded as a no-op. -/
def handleInputMove (pos : Point) (g : GameState) : GameState :=
  if g.isDrawing = false ∨ g.state ≠ Phase.PLAYING then g
  else
    match g.currentPath.getLast? with
    | none => g
    | some last =>
      if 25 < distSq pos.x pos.y last.x last.y then
        checkRealTimeSelection { g with currentPath := g.currentPath ++ [pos] }
      else g

/-- `Game.handleInputEnd`: ignored unless a drag is active (no phase check in
the source); stops the drag, evaluates the selection, then clears the path. -/
def handleInputEnd (supply : List RandDraw) (g : GameState) : GameState :=
  if g.isDrawing = false then g
  else { checkSelection supply { g with isDrawing := false } with currentPath := [] }

/-- `Game.endGame`: enter `FINISHED`, stop the 1 Hz timer, update the
persisted best on a strict improvement, and show the badge iff the improvement
happened with a positive score. -/
def endGame (g : GameState) : GameState :=
  let g1 := { g with state := Phase.FINISHED, timerRunning := false }
  let isNewRecord := decide (g1.highScore < g1.score)
  let g2 := if isNewRecord then { g1 with highScore := g1.score } else g1
  { g2 with newRecordShown := isNewRecord && decide (0 < g2.score) }

/-- `Game.updateTimer`: decrement, then end the game once `timeLeft <= 0`. -/
def updateTimer (g : GameState) : GameState :=
  let g1 := { g with timeLeft := g.timeLeft - 1 }
  if g1.timeLeft ≤ 0 then endGame g1 else g1

/-- Release-time selection set as the spec's section 2 words it: the active
tokens whose centers the containment test reports inside the final path. -/
def reevalSelectedActive (g : GameState) : List Apple :=
  g.apples.filter fun a => !a.removed && isPointInPolygon ⟨a.x, a.y⟩ g.currentPath

/-- Marking step of the re-evaluating variant. -/
def markRemovedIfInside (path : List Point) (a : Apple) : Apple :=
  if !a.removed && isPointInPolygon ⟨a.x, a.y⟩ path then { a with removed := true } else a

/-- Success branch of the re-evaluating variant. -/
def applyMatchReeval (supply : List RandDraw) (g : GameState) : GameState :=
  checkRefill supply (updateScore (reevalSelectedActive g).length
    ((reevalSelectedActive g).foldl (fun h a => spawnParticles a.x a.y h)
      { g with apples := g.apples.map (markRemovedIfInside g.currentPath) }))

/-- Release evaluation as the spec's section 2 describes it ("On release, the
Session State Machine re-evaluates containment, sums selected token values,
..."): identical pipeline to `checkSelection` but the selection is recomputed
from the final path instead of read from the `selected` flags. -/
def checkSelectionReeval (supply : List RandDraw) (g : GameState) : GameState :=
  if g.currentPath.length < 3 then g
  else
    let g1 :=
      if sumValues (reevalSelectedActive g) = 10 then applyMatchReeval supply g else g
    { g1 with apples := g1.apples.map clearSelected }

/-- One whole drag gesture: the start event followed by a list of move events
(the release is `handleInputEnd`, applied to the result by the theorems). -/
def processGesture (g0 : GameState) (startPos : Point) (moves : List Point) : GameState :=
  moves.foldl (fun g p => handleInputMove p g) (handleInputStart startPos g0)

/-- Concrete three-vertex path used by witnesses (only its length matters to
`checkSelection`). -/
def pathTri : List Point := [⟨0, 0⟩, ⟨10, 0⟩, ⟨20, 0⟩]

/-- Concrete selected apple of value 4. -/
def wApple4 : Apple := ⟨100, 100, 4, true, 0, false⟩

/-- Concrete selected apple of value 6. -/
def wApple6 : Apple := ⟨200, 100, 6, true, 0, false⟩

/-- Concrete selected apple of value 3. -/
def wApple3 : Apple := ⟨300, 100, 3, true, 0, false⟩

/-- Concrete mid-drag game state with a matching selection (4 + 6 = 10). -/
def wMatchState : GameState :=
  { apples := [wApple4, wApple6], particles := [], score := 0, isDrawing := true,
    currentPath := pathTri, state := Phase.PLAYING, timeLeft := 60, timerRunning := true,
    highScore := 0, newRecordShown := false, width := 800, height := 600 }

/-- Concrete mid-drag state whose selection sums to 7, not 10. -/
def wNoMatchState : GameState := { wMatchState with apples := [wApple4, wApple3] }

/-- Concrete state with a still-active drag after the phase left `PLAYING`:
reached by the timer expiring between a drag's start and its release. -/
def finishedDragState : GameState := { wMatchState with state := Phase.FINISHED }

/-- Concrete idle state in `INTRO`. -/
def wIntroState : GameState :=
  { wMatchState with state := Phase.INTRO, isDrawing := false, currentPath := [] }

/-- Concrete state whose path is a single point. -/
def wShortPathState : GameState := { wMatchState with currentPath := [origin] }

/-- Concrete state holding a full 30-token active board. -/
def wFullState : GameState := { wMatchState with apples := List.replicate 30 wApple4 }

/-- Concrete `PLAYING` state with one unselected apple and no path. -/
def wGestureStart : GameState :=
  { wMatchState with
    apples := [⟨5, 1, 4, false, 0, false⟩], isDrawing := false, currentPath := [] }

/-- Concrete state one tick before timeout, score 5 against best 3. -/
def wEndState : GameState := { wMatchState with score := 5, highScore := 3, timeLeft := 1 }

/-- Concrete triangle path enclosing the origin. -/
def wTri : List Point := [⟨-2, -1⟩, ⟨2, -1⟩, ⟨0, 2⟩]

/-- Concrete query point. -/
def wQueryPoint : Point := ⟨0, 0⟩

/-! ## Helper lemmas: geometry -/

/-- Toggling a boolean once per satisfied element computes the parity of the
count of satisfied elements. -/
theorem foldl_flip_parity (f : ℕ → Bool) (l : List ℕ) (b : Bool) :
    l.foldl (fun inside i => if f i then !inside else inside) b
      = (b != decide (Odd (l.countP f))) := by
  induction l generalizing b with
  | nil => simp
  | cons i l ih =>
    simp only [List.foldl_cons, ih, List.countP_cons]
    cases hfi : f i <;> cases hb : b <;>
      cases hodd : decide (Odd (l.countP f)) <;>
        simp_all [Nat.odd_add_one]

/-- The ray-casting fold equals the parity of the crossing count. -/
theorem isPointInPolygon_eq_parity (p : Point) (vs : List Point) :
    isPointInPolygon p vs
      = decide (Odd ((List.range vs.length).countP (edgeHit p vs))) := by
  unfold isPointInPolygon
  rw [foldl_flip_parity]
  simp

/-- The loop body's crossing test decides exactly the spec's crossing rule. -/
theorem edgeHit_eq_spec (p : Point) (vs : List Point) (i : ℕ) :
    edgeHit p vs i
      = decide (specEdgeCross p (vs.getD i origin) (vs.getD (polyPrev vs.length i) origin)) := by
  have key : ∀ vi vj : Point,
      raycastHit p.x p.y vi.x vi.y vj.x vj.y = decide (specEdgeCross p vi vj) := by
    intro vi vj
    unfold raycastHit specEdgeCross
    rcases lt_or_le p.y vi.y with h1 | h1 <;> rcases lt_or_le p.y vj.y with h2 | h2
    · simp [gt_iff_lt, h1, h2]
    · simp [gt_iff_lt, h1, not_lt.mpr h2]
    · simp [gt_iff_lt, h2, not_lt.mpr h1]
    · simp [gt_iff_lt, not_lt.mpr h1, not_lt.mpr h2]
  exact key (vs.getD i origin) (vs.getD (polyPrev vs.length i) origin)

/-- Reversing the edge's endpoints does not change the crossing test: the
straddle condition is symmetric and the crossing x-coordinate is the same
point on the same line. -/
theorem raycastHit_symm (x y xi yi xj yj : ℚ) :
    raycastHit x y xi yi xj yj = raycastHit x y xj yj xi yi := by
  unfold raycastHit
  by_cases h1 : yi > y <;> by_cases h2 : yj > y
  · simp [h1, h2]
  · have hlt : yj < yi := lt_of_le_of_lt (le_of_not_lt h2) h1
    have hne : yj - yi ≠ 0 := sub_ne_zero.mpr (ne_of_lt hlt)
    have hne' : yi - yj ≠ 0 := sub_ne_zero.mpr (ne_of_gt hlt)
    have hx : (xj - xi) * (y - yi) / (yj - yi) + xi
        = (xi - xj) * (y - yj) / (yi - yj) + xj := by
      field_simp
      ring
    simp [h1, h2, hx]
  · have hlt : yi < yj := lt_of_le_of_lt (le_of_not_lt h1) h2
    have hne : yj - yi ≠ 0 := sub_ne_zero.mpr (ne_of_gt hlt)
    have hne' : yi - yj ≠ 0 := sub_ne_zero.mpr (ne_of_lt hlt)
    have hx : (xj - xi) * (y - yi) / (yj - yi) + xi
        = (xi - xj) * (y - yj) / (yi - yj) + xj := by
      field_simp
      ring
    simp [h1, h2, hx]
  · simp [h1, h2]

/-- A one-vertex path contains nothing: its only edge cannot straddle. -/
theorem isPointInPolygon_single (p a : Point) : isPointInPolygon p [a] = false := by
  have hfold : isPointInPolygon p [a] = (if edgeHit p [a] 0 then !false else false) := rfl
  have h0 : edgeHit p [a] 0 = raycastHit p.x p.y a.x a.y a.x a.y := rfl
  rw [hfold, h0]
  unfold raycastHit
  simp

/-- A two-vertex path contains nothing: its two edges are the same segment
traversed both ways, so their crossing tests agree and the toggles cancel. -/
theorem isPointInPolygon_pair (p a b : Point) : isPointInPolygon p [a, b] = false := by
  have hsym := raycastHit_symm p.x p.y a.x a.y b.x b.y
  have hfold : isPointInPolygon p [a, b]
      = (if edgeHit p [a, b] 1 then !(if edgeHit p [a, b] 0 then !false else false)
         else (if edgeHit p [a, b] 0 then !false else false)) := rfl
  have h0 : edgeHit p [a, b] 0 = raycastHit p.x p.y a.x a.y b.x b.y := rfl
  have h1 : edgeHit p [a, b] 1 = raycastHit p.x p.y b.x b.y a.x a.y := rfl
  rw [hfold, h0, h1, ← hsym]
  cases raycastHit p.x p.y a.x a.y b.x b.y <;> rfl

/-! ## C3 -/

/-- C3: for every query point and every path of at least 3 vertices, the
point-in-polygon test returns inside iff the number of polygon edges whose
endpoints straddle the point's y-coordinate under the half-open rule and whose
crossing x-coordinate strictly exceeds the point's x-coordinate is odd. -/
theorem isPointInPolygon_iff_odd_crossings (p : Point) (vs : List Point)
    (h : 3 ≤ vs.length) :
    isPointInPolygon p vs = true ↔
      Odd ((List.range vs.length).countP (fun i =>
        decide (specEdgeCross p (vs.getD i origin) (vs.getD (polyPrev vs.length i) origin)))) := by
  have hc : (List.range vs.length).countP (edgeHit p vs)
      = (List.range vs.length).countP (fun i =>
          decide (specEdgeCross p (vs.getD i origin) (vs.getD (polyPrev vs.length i) origin))) :=
    List.countP_congr (fun i _ => by rw [edgeHit_eq_spec p vs i])
  rw [isPointInPolygon_eq_parity, hc]
  simp

/-- Witness for C3 at a concrete triangle and interior point. -/
theorem isPointInPolygon_iff_odd_crossings_witness :
    3 ≤ wTri.length ∧
      (isPointInPolygon wQueryPoint wTri = true ↔
        Odd ((List.range wTri.length).countP (fun i =>
          decide (specEdgeCross wQueryPoint (wTri.getD i origin)
            (wTri.getD (polyPrev wTri.length i) origin))))) :=
  ⟨by decide, isPointInPolygon_iff_odd_crossings wQueryPoint wTri (by decide)⟩

/-! ## C9 -/

/-- C9: a path with fewer than 3 recorded points never contains any point (in
particular a 2-point path returns false for every query point), and a gesture
whose path has fewer than 3 points is never eligible for selection
evaluation (`checkSelection` is the identity there). -/
theorem degenerate_path_never_contained :
    (∀ (p : Point) (vs : List Point), vs.length < 3 → isPointInPolygon p vs = false) ∧
      (∀ (supply : List RandDraw) (g : GameState), g.currentPath.length < 3 →
        checkSelection supply g = g) := by
  constructor
  · intro p vs h
    match vs with
    | [] => rfl
    | [a] => exact isPointInPolygon_single p a
    | [a, b] => exact isPointInPolygon_pair p a b
    | a :: b :: c :: t => simp at h; omega
  · intro supply g h
    unfold checkSelection
    rw [if_pos h]

/-- Witness for C9: a concrete 2-point path and a concrete short-path state. -/
theorem degenerate_path_never_contained_witness :
    isPointInPolygon origin [origin, ⟨1, 1⟩] = false ∧
      checkSelection [] wShortPathState = wShortPathState :=
  ⟨degenerate_path_never_contained.1 origin [origin, ⟨1, 1⟩] (by decide),
   degenerate_path_never_contained.2 [] wShortPathState (by decide)⟩

/-! ## C8 -/

/-- C8: when the countdown reaches 0 the session enters `FINISHED` and the
1 Hz timer stops; the persisted best is updated, and the new-record flag
raised, iff the final score strictly exceeds the previous best and is positive
(positivity being automatic for a natural score above a natural best); hence
the stored best never decreases. -/
theorem timeout_finishes_and_updates_best (g : GameState) (h : g.timeLeft ≤ 1) :
    (updateTimer g).state = Phase.FINISHED ∧
      (updateTimer g).timerRunning = false ∧
      (updateTimer g).highScore = max g.highScore g.score ∧
      ((updateTimer g).newRecordShown = true ↔ g.highScore < g.score ∧ 0 < g.score) ∧
      (g.highScore < (updateTimer g).highScore ↔ g.highScore < g.score ∧ 0 < g.score) ∧
      g.highScore ≤ (updateTimer g).highScore := by
  have ht : g.timeLeft - 1 ≤ 0 := by omega
  by_cases hrec : g.highScore < g.score
  · have h0 : 0 < g.score := lt_of_le_of_lt (Nat.zero_le _) hrec
    simp [updateTimer, endGame, ht, hrec, h0, Nat.max_eq_right (le_of_lt hrec), le_of_lt hrec]
  · have hle : g.score ≤ g.highScore := not_lt.mp hrec
    simp [updateTimer, endGame, ht, hrec, Nat.max_eq_left hle]

/-- Witness for C8 at a concrete state one tick before timeout. -/
theorem timeout_finishes_and_updates_best_witness :
    wEndState.timeLeft ≤ 1 ∧
      ((updateTimer wEndState).state = Phase.FINISHED ∧
        (updateTimer wEndState).timerRunning = false ∧
        (updateTimer wEndState).highScore = max wEndState.highScore wEndState.score ∧
        ((updateTimer wEndState).newRecordShown = true ↔
          wEndState.highScore < wEndState.score ∧ 0 < wEndState.score) ∧
        (wEndState.highScore < (updateTimer wEndState).highScore ↔
          wEndState.highScore < wEndState.score ∧ 0 < wEndState.score) ∧
        wEndState.highScore ≤ (updateTimer wEndState).highScore) :=
  ⟨by decide, timeout_finishes_and_updates_best wEndState (by decide)⟩

/-! ## C5 -/

/-- C5 counterexample: the claim "no gesture event changes token flags or the
score outside `PLAYING`" is false at this concrete input. A drag begun while
`PLAYING` is still active when the timer expiry moves the state to `FINISHED`
(`updateTimer` does not reset `isDrawing`); the release event then evaluates
the selection with no phase guard, removes both tokens and scores 2. -/
theorem finished_release_changes_score :
    finishedDragState.state = Phase.FINISHED ∧
      finishedDragState.score = 0 ∧
      finishedDragState.apples.length = 2 ∧
      (handleInputEnd [] finishedDragState).score = 2 ∧
      (handleInputEnd [] finishedDragState).apples = [] := by decide

/-- C5 (amended): while the state is `INTRO`, `COUNTDOWN` or `FINISHED`,
gesture start and gesture move events are ignored outright, and a gesture
release is ignored provided no drag is still marked active; a release with
`isDrawing` still set is evaluated regardless of the phase. -/
theorem input_ignored_outside_playing (pos : Point) (supply : List RandDraw)
    (g : GameState) (h : g.state ≠ Phase.PLAYING) :
    handleInputStart pos g = g ∧ handleInputMove pos g = g ∧
      (g.isDrawing = false → handleInputEnd supply g = g) := by
  refine ⟨?_, ?_, ?_⟩
  · unfold handleInputStart
    rw [if_pos h]
  · unfold handleInputMove
    rw [if_pos (Or.inr h)]
  · intro hd
    unfold handleInputEnd
    rw [if_pos hd]

/-- Witness for the amended C5 at a concrete `INTRO` state. -/
theorem input_ignored_outside_playing_witness :
    wIntroState.state ≠ Phase.PLAYING ∧
      (handleInputStart origin wIntroState = wIntroState ∧
        handleInputMove origin wIntroState = wIntroState ∧
        (wIntroState.isDrawing = false → handleInputEnd [] wIntroState = wIntroState)) :=
  ⟨by decide, input_ignored_outside_playing origin [] wIntroState (by decide)⟩

/-! ## Helper lemmas: selection pipeline -/

/-- Clearing an already-clear flag changes nothing. -/
theorem clearSelected_id (a : Apple) (h : a.selected = false) : clearSelected a = a := by
  cases a
  simp_all [clearSelected]

/-- After clearing every flag, the selected-active filter is empty. -/
theorem selectedActive_clear (l : List Apple) : selectedActive (l.map clearSelected) = [] := by
  induction l with
  | nil => rfl
  | cons a t ih => simpa [selectedActive, clearSelected, List.filter_cons] using ih

/-- Clearing all flags twice equals clearing them once. -/
theorem map_clear_idem (l : List Apple) :
    (l.map clearSelected).map clearSelected = l.map clearSelected := by
  induction l with
  | nil => rfl
  | cons a t ih => simp [clearSelected, ih]

/-- A list of unselected apples is unchanged by clearing. -/
theorem map_clear_id (l : List Apple) (h : ∀ a ∈ l, a.selected = false) :
    l.map clearSelected = l := by
  induction l with
  | nil => rfl
  | cons a t ih =>
    rw [List.map_cons, clearSelected_id a (h a (by simp)), ih (fun a ha => h a (by simp [ha]))]

/-- `checkRefill` writes only the `apples` field. -/
theorem checkRefill_only_apples (supply : List RandDraw) (g : GameState) :
    checkRefill supply g = { g with apples := (checkRefill supply g).apples } := by
  unfold checkRefill spawnNewApples
  split <;> rfl

/-- Folding particle bursts over a list of apples appends exactly `burstsOf`. -/
theorem spawnFold_state (sel : List Apple) (g : GameState) :
    sel.foldl (fun h a => spawnParticles a.x a.y h) g
      = { g with particles := g.particles ++ burstsOf sel } := by
  induction sel generalizing g with
  | nil =>
    rw [List.foldl_nil, show burstsOf [] = [] from rfl, List.append_nil]
  | cons a t ih =>
    rw [List.foldl_cons, ih]
    simp [spawnParticles, burstsOf]

/-- `updateScore` with a positive count adds it. -/
theorem updateScore_pos (k : ℕ) (hk : k ≠ 0) (g : GameState) :
    updateScore k g = { g with score := g.score + k } := by
  unfold updateScore
  rw [if_neg hk]

/-! ## C2 -/

/-- Every apple produced by the final clearing map is unselected. -/
theorem mem_map_clear_selected (l : List Apple) :
    ∀ a ∈ l.map clearSelected, a.selected = false := by
  intro a ha
  obtain ⟨a0, -, rfl⟩ := List.mem_map.mp ha
  rfl

/-- C2: when the selected active values do not sum to 10, the only state
change of `checkSelection` is clearing every token's `selected` flag (or
nothing at all on a degenerate path) and re-running the evaluation on the
result is a no-op; and after every evaluation (a path of at least 3 points),
match or not, every token's `selected` flag is cleared. -/
theorem no_match_only_clears_flags (supply : List RandDraw) (g : GameState) :
    (sumValues (selectedActive g.apples) ≠ 10 →
      checkSelection supply g
          = (if g.currentPath.length < 3 then g
             else { g with apples := g.apples.map clearSelected }) ∧
        ∀ supply2, checkSelection supply2 (checkSelection supply g)
            = checkSelection supply g) ∧
      (3 ≤ g.currentPath.length →
        ∀ a ∈ (checkSelection supply g).apples, a.selected = false) := by
  constructor
  · intro hsum
    have h1 : checkSelection supply g
        = (if g.currentPath.length < 3 then g
           else { g with apples := g.apples.map clearSelected }) := by
      unfold checkSelection
      by_cases hp : g.currentPath.length < 3
      · rw [if_pos hp, if_pos hp]
      · rw [if_neg hp, if_neg hp]
        simp only [if_neg hsum]
    refine ⟨h1, fun supply2 => ?_⟩
    rw [h1]
    by_cases hp : g.currentPath.length < 3
    · rw [if_pos hp]
      unfold checkSelection
      rw [if_pos hp]
    · rw [if_neg hp]
      have hsel : selectedActive (g.apples.map clearSelected) = [] := selectedActive_clear _
      have hs0 : sumValues (selectedActive (g.apples.map clearSelected)) ≠ 10 := by
        rw [hsel]
        decide
      unfold checkSelection
      rw [if_neg hp]
      simp only [if_neg hs0]
      simp [map_clear_idem]
      intro a _
      rfl
  · intro h3 a ha
    have hres : (checkSelection supply g).apples
        = (if sumValues (selectedActive g.apples) = 10 then applyMatch supply g
           else g).apples.map clearSelected := by
      unfold checkSelection
      rw [if_neg (not_lt.mpr h3)]
    rw [hres] at ha
    exact mem_map_clear_selected _ a ha

/-- Witness for C2: the no-match half at a concrete selection summing to 7,
and the match-or-not flag clearing at the concrete matching 4 + 6 selection. -/
theorem no_match_only_clears_flags_witness :
    (sumValues (selectedActive wNoMatchState.apples) ≠ 10 ∧
        3 ≤ wMatchState.currentPath.length) ∧
      ((checkSelection [] wNoMatchState
            = (if wNoMatchState.currentPath.length < 3 then wNoMatchState
               else { wNoMatchState with
                      apples := wNoMatchState.apples.map clearSelected }) ∧
          ∀ supply2, checkSelection supply2 (checkSelection [] wNoMatchState)
              = checkSelection [] wNoMatchState) ∧
        ∀ a ∈ (checkSelection [] wMatchState).apples, a.selected = false) :=
  ⟨⟨by decide, by decide⟩,
    ⟨(no_match_only_clears_flags [] wNoMatchState).1 (by decide),
      (no_match_only_clears_flags [] wMatchState).2 (by decide)⟩⟩

/-! ## C10 -/

/-- With every value between 1 and 9, a sum of exactly 10 needs two addends. -/
theorem sum10_needs_two (l : List Apple) (hv : ∀ a ∈ l, 1 ≤ a.value ∧ a.value ≤ 9)
    (hs : sumValues l = 10) : 2 ≤ l.length := by
  match l with
  | [] => simp [sumValues] at hs
  | [a] =>
    have h9 := (hv a (by simp)).2
    simp [sumValues] at hs
    omega
  | a :: b :: t => simp

/-- C10: when every apple value lies in `[1, 9]`, a matched selection holds at
least two tokens, so a successful match adds at least 2 to the score and the
zero-count reset branch of `updateScore` is unreachable from a match. -/
theorem match_requires_two_tokens (supply : List RandDraw) (g : GameState)
    (hval : ∀ a ∈ g.apples, 1 ≤ a.value ∧ a.value ≤ 9)
    (h3 : 3 ≤ g.currentPath.length)
    (hsum : sumValues (selectedActive g.apples) = 10) :
    2 ≤ (selectedActive g.apples).length ∧
      (checkSelection supply g).score = g.score + (selectedActive g.apples).length ∧
      g.score + 2 ≤ (checkSelection supply g).score := by
  have hvsel : ∀ a ∈ selectedActive g.apples, 1 ≤ a.value ∧ a.value ≤ 9 :=
    fun a ha => hval a (List.mem_of_mem_filter ha)
  have h2 := sum10_needs_two _ hvsel hsum
  have hscore : (checkSelection supply g).score
      = g.score + (selectedActive g.apples).length := by
    unfold checkSelection
    rw [if_neg (not_lt.mpr h3)]
    simp only [if_pos hsum]
    unfold applyMatch
    rw [checkRefill_only_apples, updateScore_pos _ (by omega), spawnFold_state]
  exact ⟨h2, hscore, by rw [hscore]; omega⟩

/-- Witness for C10 at the concrete 4 + 6 selection. -/
theorem match_requires_two_tokens_witness :
    (∀ a ∈ wMatchState.apples, 1 ≤ a.value ∧ a.value ≤ 9) ∧
      3 ≤ wMatchState.currentPath.length ∧
      sumValues (selectedActive wMatchState.apples) = 10 ∧
      (2 ≤ (selectedActive wMatchState.apples).length ∧
        (checkSelection [] wMatchState).score
            = wMatchState.score + (selectedActive wMatchState.apples).length ∧
        wMatchState.score + 2 ≤ (checkSelection [] wMatchState).score) :=
  ⟨by decide, by decide, by decide,
    match_requires_two_tokens [] wMatchState (by decide) (by decide) (by decide)⟩

/-! ## Helper lemmas: marking and refilling -/

/-- Marking the selected-active apples removed leaves exactly the unselected
active apples in the active filter. -/
theorem activeList_mark (l : List Apple) :
    activeList (l.map markRemovedIfSelected)
      = l.filter (fun a => !a.removed && !a.selected) := by
  induction l with
  | nil => rfl
  | cons a t ih =>
    cases hsel : a.selected <;> cases hrem : a.removed <;>
      simp [activeList, markRemovedIfSelected, List.filter_cons, hsel, hrem] <;>
        simpa [activeList] using ih

/-- The active apples split into the selected-active and unselected-active. -/
theorem active_split (l : List Apple) :
    (activeList l).length
      = (selectedActive l).length + (l.filter (fun a => !a.removed && !a.selected)).length := by
  induction l with
  | nil => rfl
  | cons a t ih =>
    cases hsel : a.selected <;> cases hrem : a.removed <;>
      simp [activeList, selectedActive, List.filter_cons, hsel, hrem] at ih ⊢ <;> omega

/-- The spawning loop appends some list of freshly constructed apples, at most
`count - added` many, each taken from a supply draw. -/
theorem spawnGo_ex (count : ℕ) (w h : ℚ) (supply : List RandDraw) :
    ∀ (attempts added : ℕ) (apples : List Apple),
      ∃ news, spawnGo count supply w h attempts added apples = apples ++ news ∧
        news.length ≤ count - added ∧
        ∀ a ∈ news, a.selected = false ∧ a.scale = 0 ∧ a.removed = false ∧
          ∃ d ∈ supply, a.x = sampleCoord w d.rx ∧ a.y = sampleCoord h d.ry ∧
            a.value = sampleVal d.rv := by
  induction supply with
  | nil =>
    intro attempts added apples
    exact ⟨[], by simp [spawnGo], by simp, by simp⟩
  | cons d rest ih =>
    intro attempts added apples
    by_cases hc : added < count ∧ attempts < 500
    · by_cases hov : overlapsActive (sampleCoord w d.rx) (sampleCoord h d.ry) apples = true
      · obtain ⟨news, heq, hlen, hprop⟩ := ih (attempts + 1) added apples
        refine ⟨news, ?_, hlen, fun a ha => ?_⟩
        · simp only [spawnGo, if_pos hc, hov, if_true]
          exact heq
        · obtain ⟨h1, h2, h3v, d', hd', hrest⟩ := hprop a ha
          exact ⟨h1, h2, h3v, d', List.mem_cons_of_mem _ hd', hrest⟩
      · obtain ⟨news, heq, hlen, hprop⟩ := ih (attempts + 1) (added + 1)
          (apples ++ [mkApple (sampleCoord w d.rx) (sampleCoord h d.ry) (sampleVal d.rv)])
        refine ⟨mkApple (sampleCoord w d.rx) (sampleCoord h d.ry) (sampleVal d.rv) :: news,
          ?_, ?_, fun a ha => ?_⟩
        · simp only [spawnGo, if_pos hc, if_neg hov]
          rw [heq, List.append_assoc]
          rfl
        · simp only [List.length_cons]
          omega
        · rcases List.mem_cons.mp ha with rfl | ha'
          · exact ⟨rfl, rfl, rfl, d, List.mem_cons_self d rest, rfl, rfl, rfl⟩
          · obtain ⟨h1, h2, h3v, d', hd', hrest⟩ := hprop a ha'
            exact ⟨h1, h2, h3v, d', List.mem_cons_of_mem _ hd', hrest⟩
    · refine ⟨[], ?_, by simp, by simp⟩
      simp only [spawnGo, if_neg hc]
      simp

/-- `activeList` distributes over append. -/
theorem activeList_append (l1 l2 : List Apple) :
    activeList (l1 ++ l2) = activeList l1 ++ activeList l2 := by
  simp [activeList]

/-- A list of apples none of which is removed is its own active list. -/
theorem activeList_all_active (l : List Apple) (h : ∀ a ∈ l, a.removed = false) :
    activeList l = l :=
  List.filter_eq_self.mpr (fun a ha => by simp [h a ha])

/-- `spawnNewApples` yields the previous active apples followed by at most
`count` fresh apples drawn from the supply. -/
theorem spawnNewApples_ex (count : ℕ) (supply : List RandDraw) (g : GameState) :
    ∃ news, (spawnNewApples count supply g).apples = activeList g.apples ++ news ∧
      news.length ≤ count ∧
      ∀ a ∈ news, a.selected = false ∧ a.scale = 0 ∧ a.removed = false ∧
        ∃ d ∈ supply, a.x = sampleCoord g.width d.rx ∧ a.y = sampleCoord g.height d.ry ∧
          a.value = sampleVal d.rv := by
  obtain ⟨news, heq, hlen, hprop⟩ := spawnGo_ex count g.width g.height supply 0 0 g.apples
  refine ⟨news, ?_, by omega, hprop⟩
  show (spawnGo count supply g.width g.height 0 0 g.apples).filter (fun a => !a.removed) = _
  rw [heq, List.filter_append]
  have h2 : news.filter (fun a => !a.removed) = news :=
    List.filter_eq_self.mpr (fun a ha => by simp [(hprop a ha).2.2.1])
  rw [h2]
  rfl

/-! ## C1 -/

/-- C1: on gesture end while `PLAYING` with a path of at least 3 points and a
selection summing to exactly 10, every selected active token is marked
removed, a burst of particles is spawned at each removed token's location, the
score grows by exactly the number of removed tokens, and the refill toward the
30-token target runs: the unselected active tokens survive, only fresh active
tokens are appended, and the board stays at or below 30 tokens. -/
theorem match_removes_scores_refills (supply : List RandDraw) (g : GameState)
    (hplay : g.state = Phase.PLAYING)
    (h3 : 3 ≤ g.currentPath.length)
    (hsum : sumValues (selectedActive g.apples) = 10)
    (hact : (activeList g.apples).length ≤ 30) :
    (∀ a ∈ g.apples, a.selected = true → a.removed = false →
        (markRemovedIfSelected a).removed = true) ∧
      (checkSelection supply g).score = g.score + (selectedActive g.apples).length ∧
      (checkSelection supply g).particles
          = g.particles ++ burstsOf (selectedActive g.apples) ∧
      (∃ news, (checkSelection supply g).apples
            = g.apples.filter (fun a => !a.removed && !a.selected) ++ news ∧
          ∀ a ∈ news, a.removed = false ∧ a.selected = false) ∧
      (checkSelection supply g).apples.length ≤ 30 := by
  have hk : (selectedActive g.apples).length ≠ 0 := by
    intro h0
    rw [List.length_eq_zero.mp h0] at hsum
    simp [sumValues] at hsum
  have hCS : checkSelection supply g
      = { applyMatch supply g with
          apples := (applyMatch supply g).apples.map clearSelected } := by
    unfold checkSelection
    rw [if_neg (not_lt.mpr h3)]
    simp only [if_pos hsum]
  have hAM : applyMatch supply g = checkRefill supply (matchedState g) := by
    unfold applyMatch matchedState
    rw [spawnFold_state, updateScore_pos _ hk]
  have hkeep : activeList (g.apples.map markRemovedIfSelected)
      = g.apples.filter (fun a => !a.removed && !a.selected) := activeList_mark g.apples
  have hsplit := active_split g.apples
  have hneed : (0 : ℤ) < 30 - ((activeList (matchedState g).apples).length : ℤ) := by
    show (0 : ℤ) < 30 - ((activeList (g.apples.map markRemovedIfSelected)).length : ℤ)
    rw [hkeep]
    omega
  have hrefill : applyMatch supply g
      = spawnNewApples ((30 : ℤ) - ((activeList (matchedState g).apples).length : ℤ)).toNat
          supply (matchedState g) := by
    rw [hAM]
    unfold checkRefill
    rw [if_pos hneed]
  obtain ⟨news, hnews, hnlen, hnprop⟩ := spawnNewApples_ex
    (((30 : ℤ) - ((activeList (matchedState g).apples).length : ℤ)).toNat) supply
    (matchedState g)
  have happles : (applyMatch supply g).apples
      = g.apples.filter (fun a => !a.removed && !a.selected) ++ news := by
    rw [hrefill, hnews]
    show activeList (g.apples.map markRemovedIfSelected) ++ news = _
    rw [hkeep]
  have hclear : ((applyMatch supply g).apples.map clearSelected)
      = (applyMatch supply g).apples := by
    apply map_clear_id
    intro a ha
    rw [happles] at ha
    rcases List.mem_append.mp ha with hkept | hnew
    · have := List.of_mem_filter hkept
      simp at this
      exact this.2
    · exact (hnprop a hnew).1
  refine ⟨?_, ?_, ?_, ?_, ?_⟩
  · intro a _ hs hr
    unfold markRemovedIfSelected
    rw [if_pos (by simp [hs, hr])]
  · rw [hCS]
    show (applyMatch supply g).score = _
    rw [hrefill]
    rfl
  · rw [hCS]
    show (applyMatch supply g).particles = _
    rw [hrefill]
    rfl
  · refine ⟨news, ?_, fun a ha => ⟨(hnprop a ha).2.2.1, (hnprop a ha).1⟩⟩
    rw [hCS]
    show ((applyMatch supply g).apples.map clearSelected) = _
    rw [hclear, happles]
  · rw [hCS]
    show ((applyMatch supply g).apples.map clearSelected).length ≤ 30
    rw [hclear, happles]
    rw [List.length_append]
    have htoNat : (((30 : ℤ) - ((activeList (matchedState g).apples).length : ℤ)).toNat : ℕ)
        = 30 - (g.apples.filter (fun a => !a.removed && !a.selected)).length := by
      show (((30 : ℤ) - ((activeList (g.apples.map markRemovedIfSelected)).length : ℤ)).toNat : ℕ)
          = _
      rw [hkeep]
      omega
    rw [htoNat] at hnlen
    omega

/-- Witness for C1 at the concrete matching state (values 4 and 6). -/
theorem match_removes_scores_refills_witness :
    wMatchState.state = Phase.PLAYING ∧
      3 ≤ wMatchState.currentPath.length ∧
      sumValues (selectedActive wMatchState.apples) = 10 ∧
      (activeList wMatchState.apples).length ≤ 30 ∧
      ((∀ a ∈ wMatchState.apples, a.selected = true → a.removed = false →
          (markRemovedIfSelected a).removed = true) ∧
        (checkSelection [] wMatchState).score
            = wMatchState.score + (selectedActive wMatchState.apples).length ∧
        (checkSelection [] wMatchState).particles
            = wMatchState.particles ++ burstsOf (selectedActive wMatchState.apples) ∧
        (∃ news, (checkSelection [] wMatchState).apples
              = wMatchState.apples.filter (fun a => !a.removed && !a.selected) ++ news ∧
            ∀ a ∈ news, a.removed = false ∧ a.selected = false) ∧
        (checkSelection [] wMatchState).apples.length ≤ 30) :=
  ⟨by decide, by decide, by decide, by decide,
    match_removes_scores_refills [] wMatchState (by decide) (by decide) (by decide) (by decide)⟩

/-! ## Helper lemmas: adequate-supply refill -/

/-- With a supply of pairwise well-separated candidate positions that are also
well separated from every active apple, no attempt is rejected, so the active
count grows by exactly the loop bound `min (count - added) (min |supply| (500 - attempts))`. -/
theorem spawnGo_far (count : ℕ) (w h : ℚ) (supply : List RandDraw) :
    ∀ (attempts added : ℕ) (L : List Apple),
      supply.Pairwise (fun d e => 3600 ≤ distSq (sampleCoord w d.rx) (sampleCoord h d.ry)
        (sampleCoord w e.rx) (sampleCoord h e.ry)) →
      (∀ d ∈ supply, ∀ a ∈ L, a.removed = false →
        3600 ≤ distSq a.x a.y (sampleCoord w d.rx) (sampleCoord h d.ry)) →
      (activeList (spawnGo count supply w h attempts added L)).length
        = (activeList L).length + min (count - added) (min supply.length (500 - attempts)) := by
  induction supply with
  | nil =>
    intro attempts added L _ _
    simp [spawnGo]
  | cons d rest ih =>
    intro attempts added L hpair hfar
    by_cases hc : added < count ∧ attempts < 500
    · have hov : overlapsActive (sampleCoord w d.rx) (sampleCoord h d.ry) L = false := by
        apply List.any_eq_false.mpr
        intro a ha
        cases hrem : a.removed
        · have hd := hfar d (List.mem_cons_self d rest) a ha hrem
          simp [hrem, not_lt.mpr hd]
        · simp [hrem]
      obtain ⟨hd, hrest⟩ := List.pairwise_cons.mp hpair
      have hfar' : ∀ e ∈ rest,
          ∀ a ∈ L ++ [mkApple (sampleCoord w d.rx) (sampleCoord h d.ry) (sampleVal d.rv)],
          a.removed = false →
            3600 ≤ distSq a.x a.y (sampleCoord w e.rx) (sampleCoord h e.ry) := by
        intro e he a ha hrem
        rcases List.mem_append.mp ha with haL | hamk
        · exact hfar e (List.mem_cons_of_mem _ he) a haL hrem
        · rw [List.mem_singleton.mp hamk]
          exact hd e he
      have hrec := ih (attempts + 1) (added + 1)
        (L ++ [mkApple (sampleCoord w d.rx) (sampleCoord h d.ry) (sampleVal d.rv)]) hrest hfar'
      have hL : (activeList
            (L ++ [mkApple (sampleCoord w d.rx) (sampleCoord h d.ry) (sampleVal d.rv)])).length
          = (activeList L).length + 1 := by
        rw [activeList_append]
        simp [activeList, mkApple]
      simp only [spawnGo, if_pos hc, hov, if_false, Bool.false_eq_true]
      rw [hrec, hL]
      simp only [List.length_cons]
      omega
    · simp only [spawnGo, if_neg hc]
      have h0 : count - added = 0 ∨ 500 - attempts = 0 := by omega
      rcases h0 with h0 | h0 <;> simp [h0]

/-! ## C7 -/

/-- C7: a refill purges every removed token from the collection, never pushes
the active count above the 30-token target, and restores the active count to
exactly 30 whenever the supply offers enough pairwise well-separated fresh
positions (no sampling exhaustion). -/
theorem refill_restores_and_purges (supply : List RandDraw) (g : GameState)
    (hact : (activeList g.apples).length ≤ 30) :
    (∀ count, ∀ a ∈ (spawnNewApples count supply g).apples, a.removed = false) ∧
      (activeList (checkRefill supply g).apples).length ≤ 30 ∧
      (30 - (activeList g.apples).length ≤ supply.length →
        supply.Pairwise (fun d e => 3600 ≤ distSq (sampleCoord g.width d.rx)
          (sampleCoord g.height d.ry) (sampleCoord g.width e.rx) (sampleCoord g.height e.ry)) →
        (∀ d ∈ supply, ∀ a ∈ g.apples, a.removed = false →
          3600 ≤ distSq a.x a.y (sampleCoord g.width d.rx) (sampleCoord g.height d.ry)) →
        (activeList (checkRefill supply g).apples).length = 30) := by
  have hpurge : ∀ count, ∀ a ∈ (spawnNewApples count supply g).apples, a.removed = false := by
    intro count a ha
    have hmem : a ∈ (spawnGo count supply g.width g.height 0 0 g.apples).filter
        (fun a => !a.removed) := ha
    have := List.of_mem_filter hmem
    simpa using this
  refine ⟨hpurge, ?_, ?_⟩
  · by_cases hneed : 0 < (30 : ℤ) - ((activeList g.apples).length : ℤ)
    · obtain ⟨news, hnews, hnlen, hnprop⟩ := spawnNewApples_ex
        (((30 : ℤ) - ((activeList g.apples).length : ℤ)).toNat) supply g
      unfold checkRefill
      rw [if_pos hneed, activeList_all_active _ (hpurge _), hnews, List.length_append]
      omega
    · unfold checkRefill
      rw [if_neg hneed]
      exact hact
  · intro hsup hpair hfar
    by_cases hneed : 0 < (30 : ℤ) - ((activeList g.apples).length : ℤ)
    · unfold checkRefill
      rw [if_pos hneed, activeList_all_active _ (hpurge _)]
      show (activeList (spawnGo (((30 : ℤ) - ((activeList g.apples).length : ℤ)).toNat)
          supply g.width g.height 0 0 g.apples)).length = 30
      rw [spawnGo_far _ g.width g.height supply 0 0 g.apples hpair hfar]
      omega
    · unfold checkRefill
      rw [if_neg hneed]
      omega

/-- Witness for C7 at a concrete full 30-token board with an empty supply. -/
theorem refill_restores_and_purges_witness :
    (activeList wFullState.apples).length ≤ 30 ∧
      ((∀ count, ∀ a ∈ (spawnNewApples count [] wFullState).apples, a.removed = false) ∧
        (activeList (checkRefill [] wFullState).apples).length ≤ 30 ∧
        (30 - (activeList wFullState.apples).length ≤ ([] : List RandDraw).length →
          ([] : List RandDraw).Pairwise (fun d e => 3600 ≤ distSq
            (sampleCoord wFullState.width d.rx) (sampleCoord wFullState.height d.ry)
            (sampleCoord wFullState.width e.rx) (sampleCoord wFullState.height e.ry)) →
          (∀ d ∈ ([] : List RandDraw), ∀ a ∈ wFullState.apples, a.removed = false →
            3600 ≤ distSq a.x a.y (sampleCoord wFullState.width d.rx)
              (sampleCoord wFullState.height d.ry)) →
          (activeList (checkRefill [] wFullState).apples).length = 30)) :=
  ⟨by decide, refill_restores_and_purges [] wFullState (by decide)⟩

/-! ## Helper lemmas: sampler membership, bounds and spacing -/

/-- A raw position draw in `[0,1)` lands in the inset play bounds. -/
theorem sampleCoord_mem (extent r : ℚ) (hr0 : 0 ≤ r) (hr1 : r < 1) (hext : 70 ≤ extent) :
    35 ≤ sampleCoord extent r ∧ sampleCoord extent r ≤ extent - 35 := by
  unfold sampleCoord
  have h70 : (0 : ℚ) ≤ extent - 2 * (25 + 10) := by linarith
  constructor
  · nlinarith [mul_nonneg hr0 h70]
  · nlinarith [mul_nonneg (by linarith : (0 : ℚ) ≤ 1 - r) h70]

/-- A raw value draw in `[0,1)` yields an integer value in `[1, 9]`. -/
theorem sampleVal_mem (r : ℚ) (hr0 : 0 ≤ r) (hr1 : r < 1) :
    1 ≤ sampleVal r ∧ sampleVal r ≤ 9 := by
  unfold sampleVal
  have h1 : (0 : ℤ) ≤ ⌊r * 9⌋ := Int.floor_nonneg.mpr (by positivity)
  have h2 : ⌊r * 9⌋ < 9 := by
    rw [Int.floor_lt]
    push_cast
    nlinarith
  omega

/-- The value map partitions `[0,1)` into nine equal-width preimages, one per
value: this is the sense in which a uniform raw draw yields a uniform value. -/
theorem sampleVal_bucket (v : ℤ) (r : ℚ) :
    sampleVal r = v ↔ ((v : ℚ) - 1) / 9 ≤ r ∧ r < (v : ℚ) / 9 := by
  unfold sampleVal
  have h9 : (0 : ℚ) < 9 := by norm_num
  rw [div_le_iff h9, lt_div_iff h9]
  rw [show (⌊r * 9⌋ + 1 = v) ↔ (⌊r * 9⌋ = v - 1) from by omega]
  rw [Int.floor_eq_iff]
  push_cast
  constructor
  · rintro ⟨ha, hb⟩
    exact ⟨by linarith, by linarith⟩
  · rintro ⟨ha, hb⟩
    exact ⟨by linarith, by linarith⟩

/-- Every apple produced by the initial-fill loop is either carried over or
freshly built from some supply draw. -/
theorem generateGo_mem (w h : ℚ) (supply : List RandDraw) :
    ∀ (attempts : ℕ) (L : List Apple), ∀ a ∈ generateGo supply w h attempts L,
      a ∈ L ∨ ∃ d ∈ supply,
        a = mkApple (sampleCoord w d.rx) (sampleCoord h d.ry) (sampleVal d.rv) := by
  induction supply with
  | nil =>
    intro attempts L a ha
    simp only [generateGo] at ha
    exact Or.inl ha
  | cons d rest ih =>
    intro attempts L a ha
    by_cases hc : L.length < 30 ∧ attempts < 1000
    · by_cases hov : overlapsAny (sampleCoord w d.rx) (sampleCoord h d.ry) L = true
      · rw [show generateGo (d :: rest) w h attempts L = generateGo rest w h (attempts + 1) L
            from by simp only [generateGo, if_pos hc, hov, if_true]] at ha
        rcases ih (attempts + 1) L a ha with hmem | ⟨d', hd', he⟩
        · exact Or.inl hmem
        · exact Or.inr ⟨d', List.mem_cons_of_mem _ hd', he⟩
      · rw [show generateGo (d :: rest) w h attempts L = generateGo rest w h (attempts + 1)
            (L ++ [mkApple (sampleCoord w d.rx) (sampleCoord h d.ry) (sampleVal d.rv)])
            from by simp only [generateGo, if_pos hc, if_neg hov]] at ha
        rcases ih (attempts + 1) _ a ha with hmem | ⟨d', hd', he⟩
        · rcases List.mem_append.mp hmem with hmem | hmem
          · exact Or.inl hmem
          · exact Or.inr ⟨d, List.mem_cons_self _ _, List.mem_singleton.mp hmem⟩
        · exact Or.inr ⟨d', List.mem_cons_of_mem _ hd', he⟩
    · rw [show generateGo (d :: rest) w h attempts L = L
          from by simp only [generateGo, if_neg hc]] at ha
      exact Or.inl ha

/-- The initial-fill loop preserves pairwise spacing of at least 60 units:
every accepted position was checked against all apples present. -/
theorem generateGo_pairwise (w h : ℚ) (supply : List RandDraw) :
    ∀ (attempts : ℕ) (L : List Apple),
      L.Pairwise (fun a b => 3600 ≤ distSq a.x a.y b.x b.y) →
      (generateGo supply w h attempts L).Pairwise
        (fun a b => 3600 ≤ distSq a.x a.y b.x b.y) := by
  induction supply with
  | nil =>
    intro attempts L hL
    simpa [generateGo] using hL
  | cons d rest ih =>
    intro attempts L hL
    by_cases hc : L.length < 30 ∧ attempts < 1000
    · by_cases hov : overlapsAny (sampleCoord w d.rx) (sampleCoord h d.ry) L = true
      · simp only [generateGo, if_pos hc, hov, if_true]
        exact ih _ _ hL
      · simp only [generateGo, if_pos hc, if_neg hov]
        apply ih
        rw [List.pairwise_append]
        refine ⟨hL, List.pairwise_singleton _ _, ?_⟩
        intro a ha b hb
        rw [List.mem_singleton.mp hb]
        have hno : ¬ (distSq a.x a.y (sampleCoord w d.rx) (sampleCoord h d.ry) < 3600) := by
          intro hlt
          exact hov (List.any_eq_true.mpr ⟨a, ha, by simp [hlt]⟩)
        exact not_lt.mp hno
    · simp only [generateGo, if_neg hc]
      exact hL

/-- The refill loop preserves pairwise spacing among the active apples:
every accepted position was checked against all active apples present. -/
theorem spawnGo_pairwise (count : ℕ) (w h : ℚ) (supply : List RandDraw) :
    ∀ (attempts added : ℕ) (L : List Apple),
      (activeList L).Pairwise (fun a b => 3600 ≤ distSq a.x a.y b.x b.y) →
      (activeList (spawnGo count supply w h attempts added L)).Pairwise
        (fun a b => 3600 ≤ distSq a.x a.y b.x b.y) := by
  induction supply with
  | nil =>
    intro _ _ L hL
    simpa [spawnGo] using hL
  | cons d rest ih =>
    intro attempts added L hL
    by_cases hc : added < count ∧ attempts < 500
    · by_cases hov : overlapsActive (sampleCoord w d.rx) (sampleCoord h d.ry) L = true
      · simp only [spawnGo, if_pos hc, hov, if_true]
        exact ih _ _ _ hL
      · simp only [spawnGo, if_pos hc, if_neg hov]
        apply ih
        rw [activeList_append]
        have hmk : activeList [mkApple (sampleCoord w d.rx) (sampleCoord h d.ry) (sampleVal d.rv)]
            = [mkApple (sampleCoord w d.rx) (sampleCoord h d.ry) (sampleVal d.rv)] := rfl
        rw [hmk, List.pairwise_append]
        refine ⟨hL, List.pairwise_singleton _ _, ?_⟩
        intro a ha b hb
        rw [List.mem_singleton.mp hb]
        have haL := List.mem_filter.mp ha
        have harem : a.removed = false := by simpa using haL.2
        have hno : ¬ (distSq a.x a.y (sampleCoord w d.rx) (sampleCoord h d.ry) < 3600) := by
          intro hlt
          exact hov (List.any_eq_true.mpr ⟨a, haL.1, by simp [harem, hlt]⟩)
        exact not_lt.mp hno
    · simp only [spawnGo, if_neg hc]
      exact hL

/-! ## C6 -/

/-- C6: with raw draws in `[0,1)` and a board at least 70 units wide and tall,
every token accepted by the initial fill has a value in `[1, 9]` (produced
uniformly: the value map splits `[0,1)` into nine equal-width buckets), a
center inside the inset play bounds and pop-in scale 0, and the accepted
tokens are pairwise at least 60 units apart; the refill adds only such tokens
after the surviving active ones and preserves the pairwise spacing of the
active board. -/
theorem sampler_tokens_valid (supply : List RandDraw) (w h : ℚ)
    (hw : 70 ≤ w) (hh : 70 ≤ h)
    (hsupply : ∀ d ∈ supply,
      0 ≤ d.rx ∧ d.rx < 1 ∧ 0 ≤ d.ry ∧ d.ry < 1 ∧ 0 ≤ d.rv ∧ d.rv < 1) :
    (∀ a ∈ generateGo supply w h 0 [],
        (1 ≤ a.value ∧ a.value ≤ 9) ∧ (35 ≤ a.x ∧ a.x ≤ w - 35) ∧
          (35 ≤ a.y ∧ a.y ≤ h - 35) ∧ a.scale = 0 ∧ a.removed = false) ∧
      (generateGo supply w h 0 []).Pairwise (fun a b => 3600 ≤ distSq a.x a.y b.x b.y) ∧
      (∀ g : GameState, g.width = w → g.height = h → ∀ count,
        (∃ news, (spawnNewApples count supply g).apples = activeList g.apples ++ news ∧
          ∀ a ∈ news, (1 ≤ a.value ∧ a.value ≤ 9) ∧ (35 ≤ a.x ∧ a.x ≤ w - 35) ∧
            (35 ≤ a.y ∧ a.y ≤ h - 35) ∧ a.scale = 0 ∧ a.removed = false) ∧
        ((activeList g.apples).Pairwise (fun a b => 3600 ≤ distSq a.x a.y b.x b.y) →
          (spawnNewApples count supply g).apples.Pairwise
            (fun a b => 3600 ≤ distSq a.x a.y b.x b.y))) ∧
      (∀ (v : ℤ) (r : ℚ), sampleVal r = v ↔ ((v : ℚ) - 1) / 9 ≤ r ∧ r < (v : ℚ) / 9) := by
  refine ⟨?_, ?_, ?_, fun v r => sampleVal_bucket v r⟩
  · intro a ha
    rcases generateGo_mem w h supply 0 [] a ha with h0 | ⟨d, hd, rfl⟩
    · simp at h0
    · obtain ⟨hrx0, hrx1, hry0, hry1, hrv0, hrv1⟩ := hsupply d hd
      exact ⟨sampleVal_mem d.rv hrv0 hrv1, sampleCoord_mem w d.rx hrx0 hrx1 hw,
        sampleCoord_mem h d.ry hry0 hry1 hh, rfl, rfl⟩
  · exact generateGo_pairwise w h supply 0 [] List.Pairwise.nil
  · intro g hgw hgh count
    constructor
    · obtain ⟨news, hnews, hnlen, hnprop⟩ := spawnNewApples_ex count supply g
      refine ⟨news, hnews, fun a ha => ?_⟩
      obtain ⟨hsel, hscale, hrem, d, hd, hax, hay, hav⟩ := hnprop a ha
      obtain ⟨hrx0, hrx1, hry0, hry1, hrv0, hrv1⟩ := hsupply d hd
      rw [hgw] at hax
      rw [hgh] at hay
      refine ⟨?_, ?_, ?_, hscale, hrem⟩
      · rw [hav]
        exact sampleVal_mem d.rv hrv0 hrv1
      · rw [hax]
        exact sampleCoord_mem w d.rx hrx0 hrx1 hw
      · rw [hay]
        exact sampleCoord_mem h d.ry hry0 hry1 hh
    · intro hpw
      exact spawnGo_pairwise count g.width g.height supply 0 0 g.apples hpw

/-- Witness for C6 with a one-draw supply of zeros on a 100-by-100 board. -/
theorem sampler_tokens_valid_witness :
    (70 ≤ (100 : ℚ)) ∧
      (∀ d ∈ [(⟨0, 0, 0⟩ : RandDraw)],
        0 ≤ d.rx ∧ d.rx < 1 ∧ 0 ≤ d.ry ∧ d.ry < 1 ∧ 0 ≤ d.rv ∧ d.rv < 1) ∧
      ((∀ a ∈ generateGo [(⟨0, 0, 0⟩ : RandDraw)] (100 : ℚ) (100 : ℚ) 0 [],
          (1 ≤ a.value ∧ a.value ≤ 9) ∧ (35 ≤ a.x ∧ a.x ≤ (100 : ℚ) - 35) ∧
            (35 ≤ a.y ∧ a.y ≤ (100 : ℚ) - 35) ∧ a.scale = 0 ∧ a.removed = false) ∧
        (generateGo [(⟨0, 0, 0⟩ : RandDraw)] (100 : ℚ) (100 : ℚ) 0 []).Pairwise
          (fun a b => 3600 ≤ distSq a.x a.y b.x b.y) ∧
        (∀ g : GameState, g.width = (100 : ℚ) → g.height = (100 : ℚ) → ∀ count,
          (∃ news, (spawnNewApples count [(⟨0, 0, 0⟩ : RandDraw)] g).apples
                = activeList g.apples ++ news ∧
            ∀ a ∈ news, (1 ≤ a.value ∧ a.value ≤ 9) ∧ (35 ≤ a.x ∧ a.x ≤ (100 : ℚ) - 35) ∧
              (35 ≤ a.y ∧ a.y ≤ (100 : ℚ) - 35) ∧ a.scale = 0 ∧ a.removed = false) ∧
          ((activeList g.apples).Pairwise (fun a b => 3600 ≤ distSq a.x a.y b.x b.y) →
            (spawnNewApples count [(⟨0, 0, 0⟩ : RandDraw)] g).apples.Pairwise
              (fun a b => 3600 ≤ distSq a.x a.y b.x b.y))) ∧
        (∀ (v : ℤ) (r : ℚ), sampleVal r = v ↔ ((v : ℚ) - 1) / 9 ≤ r ∧ r < (v : ℚ) / 9)) :=
  ⟨by norm_num, by decide,
    sampler_tokens_valid [(⟨0, 0, 0⟩ : RandDraw)] 100 100 (by norm_num) (by norm_num)
      (by decide)⟩

/-! ## Helper lemmas: live-highlight consistency along a gesture -/

/-- One move event preserves: still `PLAYING`, still drawing, and — whenever
the path has reached 3 points — every active apple's flag equals containment
of its center in the current path. -/
theorem move_preserves_inv (p : Point) (g : GameState)
    (hstate : g.state = Phase.PLAYING) (hdraw : g.isDrawing = true)
    (hcons : 3 ≤ g.currentPath.length → ∀ a ∈ g.apples, a.removed = false →
      a.selected = isPointInPolygon ⟨a.x, a.y⟩ g.currentPath) :
    (handleInputMove p g).state = Phase.PLAYING ∧
      (handleInputMove p g).isDrawing = true ∧
      (3 ≤ (handleInputMove p g).currentPath.length →
        ∀ a ∈ (handleInputMove p g).apples, a.removed = false →
          a.selected = isPointInPolygon ⟨a.x, a.y⟩ (handleInputMove p g).currentPath) := by
  have hcond : ¬ (g.isDrawing = false ∨ g.state ≠ Phase.PLAYING) := by
    simp [hdraw, hstate]
  unfold handleInputMove
  rw [if_neg hcond]
  split
  · exact ⟨hstate, hdraw, hcons⟩
  · rename_i last hlast
    by_cases hdist : 25 < distSq p.x p.y last.x last.y
    · rw [if_pos hdist]
      unfold checkRealTimeSelection
      by_cases hlen : (g.currentPath ++ [p]).length < 3
      · rw [if_pos hlen]
        refine ⟨hstate, hdraw, ?_⟩
        intro h3
        exact absurd h3 (not_le.mpr hlen)
      · rw [if_neg hlen]
        refine ⟨hstate, hdraw, ?_⟩
        intro _ a ha hrem
        simp only [List.mem_map] at ha
        obtain ⟨a0, ha0, rfl⟩ := ha
        by_cases hrem0 : a0.removed = true
        · exfalso
          simp [hrem0] at hrem
        · have hrem0' : a0.removed = false := by simpa using hrem0
          simp [hrem0']
    · rw [if_neg hdist]
      exact ⟨hstate, hdraw, hcons⟩

/-- Folding the move events keeps the invariant of `move_preserves_inv`. -/
theorem foldMoves_inv (moves : List Point) :
    ∀ g : GameState, g.state = Phase.PLAYING → g.isDrawing = true →
      (3 ≤ g.currentPath.length → ∀ a ∈ g.apples, a.removed = false →
        a.selected = isPointInPolygon ⟨a.x, a.y⟩ g.currentPath) →
      ((moves.foldl (fun gg p => handleInputMove p gg) g).state = Phase.PLAYING ∧
        (moves.foldl (fun gg p => handleInputMove p gg) g).isDrawing = true ∧
        (3 ≤ (moves.foldl (fun gg p => handleInputMove p gg) g).currentPath.length →
          ∀ a ∈ (moves.foldl (fun gg p => handleInputMove p gg) g).apples,
            a.removed = false →
            a.selected = isPointInPolygon ⟨a.x, a.y⟩
              (moves.foldl (fun gg p => handleInputMove p gg) g).currentPath)) := by
  induction moves with
  | nil =>
    intro g h1 h2 h3
    exact ⟨h1, h2, h3⟩
  | cons m ms ih =>
    intro g h1 h2 h3
    rw [List.foldl_cons]
    obtain ⟨k1, k2, k3⟩ := move_preserves_inv m g h1 h2 h3
    exact ih (handleInputMove m g) k1 k2 k3

/-- After a whole gesture begun while `PLAYING`: still `PLAYING`, still
drawing, and flag-containment consistency whenever the path reached 3 points
(the last recomputation used exactly the final path). -/
theorem processGesture_inv (g0 : GameState) (startPos : Point) (moves : List Point)
    (hplay : g0.state = Phase.PLAYING) :
    (processGesture g0 startPos moves).state = Phase.PLAYING ∧
      (processGesture g0 startPos moves).isDrawing = true ∧
      (3 ≤ (processGesture g0 startPos moves).currentPath.length →
        ∀ a ∈ (processGesture g0 startPos moves).apples, a.removed = false →
          a.selected = isPointInPolygon ⟨a.x, a.y⟩
            (processGesture g0 startPos moves).currentPath) := by
  unfold processGesture
  apply foldMoves_inv
  · show (handleInputStart startPos g0).state = Phase.PLAYING
    unfold handleInputStart
    rw [if_neg (by simp [hplay])]
    exact hplay
  · show (handleInputStart startPos g0).isDrawing = true
    unfold handleInputStart
    rw [if_neg (by simp [hplay])]
  · show 3 ≤ (handleInputStart startPos g0).currentPath.length → _
    unfold handleInputStart
    rw [if_neg (by simp [hplay])]
    intro h3
    exact absurd h3 (by simp)

/-! ## C4 -/

/-- C4: for any gesture started and moved while `PLAYING` whose final path has
at least 3 points, the tokens summed at release (selected flags left by the
last live-highlight recomputation) are exactly the active tokens whose centers
the containment test reports inside the final path, and the flag-based release
evaluation equals the spec's re-evaluating release evaluation. -/
theorem release_matches_reevaluation (g0 : GameState) (startPos : Point)
    (moves : List Point) (supply : List RandDraw)
    (hplay : g0.state = Phase.PLAYING)
    (h3 : 3 ≤ (processGesture g0 startPos moves).currentPath.length) :
    selectedActive (processGesture g0 startPos moves).apples
        = reevalSelectedActive (processGesture g0 startPos moves) ∧
      checkSelection supply (processGesture g0 startPos moves)
        = checkSelectionReeval supply (processGesture g0 startPos moves) := by
  obtain ⟨-, -, hconsf⟩ := processGesture_inv g0 startPos moves hplay
  have hcons := hconsf h3
  have hfilter : ∀ a ∈ (processGesture g0 startPos moves).apples,
      (a.selected && !a.removed)
        = (!a.removed && isPointInPolygon ⟨a.x, a.y⟩
            (processGesture g0 startPos moves).currentPath) := by
    intro a ha
    cases hrem : a.removed
    · rw [hcons a ha hrem]
      simp
    · simp [hrem]
  have hsel : selectedActive (processGesture g0 startPos moves).apples
      = reevalSelectedActive (processGesture g0 startPos moves) := by
    unfold selectedActive reevalSelectedActive
    exact List.filter_congr (fun a ha => by rw [hfilter a ha])
  have hmark : (processGesture g0 startPos moves).apples.map markRemovedIfSelected
      = (processGesture g0 startPos moves).apples.map
          (markRemovedIfInside (processGesture g0 startPos moves).currentPath) := by
    apply List.map_congr_left
    intro a ha
    unfold markRemovedIfSelected markRemovedIfInside
    rw [hfilter a ha]
  have happ : applyMatch supply (processGesture g0 startPos moves)
      = applyMatchReeval supply (processGesture g0 startPos moves) := by
    unfold applyMatch applyMatchReeval
    rw [hsel, hmark]
  refine ⟨hsel, ?_⟩
  unfold checkSelection checkSelectionReeval
  rw [hsel, happ]

/-- Witness for C4 at a concrete gesture of three collinear points. -/
theorem release_matches_reevaluation_witness :
    wGestureStart.state = Phase.PLAYING ∧
      3 ≤ (processGesture wGestureStart origin [⟨10, 0⟩, ⟨20, 0⟩]).currentPath.length ∧
      (selectedActive (processGesture wGestureStart origin [⟨10, 0⟩, ⟨20, 0⟩]).apples
          = reevalSelectedActive (processGesture wGestureStart origin [⟨10, 0⟩, ⟨20, 0⟩]) ∧
        checkSelection [] (processGesture wGestureStart origin [⟨10, 0⟩, ⟨20, 0⟩])
          = checkSelectionReeval [] (processGesture wGestureStart origin [⟨10, 0⟩, ⟨20, 0⟩])) :=
  ⟨by decide,
    by norm_num [processGesture, handleInputStart, handleInputMove, checkRealTimeSelection,
      wGestureStart, wMatchState, distSq, origin, List.getLast?],
    release_matches_reevaluation wGestureStart origin [⟨10, 0⟩, ⟨20, 0⟩] [] (by decide)
      (by norm_num [processGesture, handleInputStart, handleInputMove, checkRealTimeSelection,
        wGestureStart, wMatchState, distSq, origin, List.getLast?])⟩
